import Mathlib

/-!
# Verification of the museum-assistant backend (`app.py`)

Shallow embedding of the query synthesis and repair pipeline with answer
orchestration.  Python strings are modelled as `List Char` (a sequence of code
points); the regular-expression substitutions of
`correct_sparql_syntax_advanced` are modelled by specialised leftmost,
non-overlapping scanners that mirror `re.sub` for the concrete patterns used by
the source.  `\w` is modelled as ASCII alphanumeric or underscore and `\s` as
the ASCII whitespace class, which matches the source behaviour on all inputs
considered here.  External services (the two Hugging Face generation calls, the
language-detection calls, the translation call, the rdflib SPARQL parser and
the rdflib store) are modelled as oracles in an `Env` record; each oracle
returns `Except Unit _` so that a raised exception is an explicit `error`.
-/

/-- Python strings as lists of code points. -/
abbrev Str := List Char

/-- The character `{` (written via its code point). -/
def lbrace : Char := Char.ofNat 123

/-- The character `}` (written via its code point). -/
def rbrace : Char := Char.ofNat 125

/-- The character `?`. -/
def qmark : Char := '?'

/-- The character `"` (written via its code point). -/
def quoteChar : Char := Char.ofNat 34

/-- The character `\` (written via its code point). -/
def backslashChar : Char := Char.ofNat 92

/-- The character `#`. -/
def hashChar : Char := '#'

/-- ASCII model of Python's whitespace class `\s` (also used by `str.strip`). -/
def isSpaceCh (c : Char) : Bool :=
  c == ' ' || c == '\t' || c == '\n' || c == '\r' || c == Char.ofNat 11 || c == Char.ofNat 12

/-- ASCII model of the regex word class `\w`: alphanumeric or underscore. -/
def isWordCh (c : Char) : Bool :=
  c.isAlphanum || c == '_'

/-- Case-insensitive character comparison (model of `re.IGNORECASE` on ASCII). -/
def ciEqCh (p c : Char) : Bool :=
  p.toLower == c.toLower

/-- `litStarts pat s` is true iff `pat` is literally a prefix of `s`. -/
def litStarts : Str → Str → Bool
  | [], _ => true
  | _ :: _, [] => false
  | p :: ps, c :: cs => p == c && litStarts ps cs

/-- Case-insensitive variant of `litStarts`. -/
def ciStarts : Str → Str → Bool
  | [], _ => true
  | _ :: _, [] => false
  | p :: ps, c :: cs => ciEqCh p c && ciStarts ps cs

/-- `litStops pat t` is true iff matching `pat` against `t` fails at a position
that lies strictly inside `t` — so the failure persists however `t` is
extended on the right. -/
def litStops : Str → Str → Bool
  | [], _ => false
  | _ :: _, [] => false
  | p :: ps, c :: cs => p != c || litStops ps cs

/-- Case-insensitive variant of `litStops`. -/
def ciStops : Str → Str → Bool
  | [], _ => false
  | _ :: _, [] => false
  | p :: ps, c :: cs => !ciEqCh p c || ciStops ps cs

/-- Substring containment, the model of Python's `pat in s`. -/
def containsSub (s pat : Str) : Bool :=
  s.tails.any (fun t => litStarts pat t)

/-- Number of positions of `s` at which `pat` starts. -/
def countSub (s pat : Str) : Nat :=
  (s.tails.filter (fun t => litStarts pat t)).length

/-- Python `str.upper` (ASCII model). -/
def toUpperL (s : Str) : Str := s.map Char.toUpper

/-- Python `str.strip` with no argument: drop leading whitespace. -/
def lstripL (s : Str) : Str := s.dropWhile isSpaceCh

/-- Python `str.strip` with no argument: drop trailing whitespace. -/
def rstripL (s : Str) : Str := (s.reverse.dropWhile isSpaceCh).reverse

/-- Python `str.strip()`. -/
def pyStrip (s : Str) : Str := rstripL (lstripL s)

/-!
## Leftmost, non-overlapping substitution (`re.sub` driver)

A matcher takes the input at the current position and either fails or returns
the replacement text together with the remaining input after the match.  The
driver `subRun` tries the matcher at every position from the left; on a match
it emits the replacement and resumes after the match, exactly like `re.sub`.
The `fuel` argument (initialised to the input length) only makes the recursion
structural; every matcher used here consumes at least one character.
-/

/-- One `re.sub` pass: scan left to right, replacing non-overlapping matches. -/
def subRun (m : Str → Option (Str × Str)) : Nat → Str → Str
  | 0, s => s
  | _ + 1, [] => []
  | fuel + 1, c :: rest =>
    match m (c :: rest) with
    | some (out, rem) => out ++ subRun m fuel rem
    | none => c :: subRun m fuel rest

/-- Apply one substitution pass with adequate fuel. -/
def applySub (m : Str → Option (Str × Str)) (s : Str) : Str :=
  subRun m s.length s

/-- A matcher makes progress: the remainder is strictly shorter than the input. -/
def Progress (m : Str → Option (Str × Str)) : Prop :=
  ∀ s out rem, m s = some (out, rem) → rem.length < s.length

/-- Matcher for a fixed nonempty literal pattern, replacing it by `rep`
(model of Python `str.replace(pat, rep)` for nonempty `pat`). -/
def litMatcher (pat rep : Str) (s : Str) : Option (Str × Str) :=
  if !pat.isEmpty && litStarts pat s then some (rep, s.drop pat.length) else none

/-- Python `str.replace(pat, rep)` for a nonempty pattern. -/
def pyReplace (pat rep s : Str) : Str := applySub (litMatcher pat rep) s

/-! ## The concrete matchers of `correct_sparql_syntax_advanced` -/

/-- The literal `SELECT`. -/
def selLit : Str := "SELECT".data

/-- The literal `WHERE`. -/
def whLit : Str := "WHERE".data

/-- The literal `progettoMuseo:`. -/
def pmLit : Str := "progettoMuseo:".data

/-- The reserved declaration token `PREFIX progettoMuseo:` tested by step 2. -/
def declTok : Str := "PREFIX progettoMuseo:".data

/-- The full declaration text (without the trailing space) that step 2 prepends. -/
def declFull : Str :=
  "PREFIX progettoMuseo: <http://www.semanticweb.org/lucreziamosca/ontologies/progettoMuseo#>".data

/-- The exact text prepended by step 2 (including its trailing space). -/
def declLine : Str := declFull ++ [' ']

/-- Matcher for `(SELECT)(\?|\*)` (case-insensitive), replacement `\1 \2`. -/
def matchSelectGap (s : Str) : Option (Str × Str) :=
  if ciStarts selLit s then
    match s.drop 6 with
    | c :: rest =>
      if c == qmark || c == '*' then some (s.take 6 ++ [' ', c], rest) else none
    | [] => none
  else none

/-- Matcher for `(WHERE)\{` (case-insensitive), replacement `\1 {`. -/
def matchWhereBrace (s : Str) : Option (Str × Str) :=
  if ciStarts whLit s then
    match s.drop 5 with
    | c :: rest =>
      if c == lbrace then some (s.take 5 ++ [' ', lbrace], rest) else none
    | [] => none
  else none

/-- Matcher for `(progettoMuseo:\w+)\?(\w+)`, replacement `\1 ?\2`. -/
def matchGlue (s : Str) : Option (Str × Str) :=
  if litStarts pmLit s then
    let t := s.drop 14
    let w1 := t.takeWhile isWordCh
    if w1.isEmpty then none
    else
      match t.drop w1.length with
      | c :: t3 =>
        if c == qmark then
          let w2 := t3.takeWhile isWordCh
          if w2.isEmpty then none
          else some (s.take (14 + w1.length) ++ ' ' :: qmark :: w2, t3.drop w2.length)
        else none
      | [] => none
  else none

/-- Matcher for `(\?\w+)\s*\}`, replacement `\1 . }`. -/
def matchDotBrace (s : Str) : Option (Str × Str) :=
  match s with
  | c :: t =>
    if c == qmark then
      let w := t.takeWhile isWordCh
      if w.isEmpty then none
      else
        match (t.drop w.length).dropWhile isSpaceCh with
        | d :: t3 =>
          if d == rbrace then some (qmark :: w ++ [' ', '.', ' ', rbrace], t3) else none
        | [] => none
    else none
  | [] => none

/-- Matcher for `(SELECT\s+[^\{]+)\{` (case-insensitive), replacement `\1 WHERE {`. -/
def matchSelectWhere (s : Str) : Option (Str × Str) :=
  if ciStarts selLit s then
    let t := s.drop 6
    match t with
    | c :: _ =>
      if isSpaceCh c then
        let span := t.takeWhile (fun d => d != lbrace)
        if 2 ≤ span.length then
          match t.drop span.length with
          | d :: t3 =>
            if d == lbrace then
              some (s.take 6 ++ span ++ [' ', 'W', 'H', 'E', 'R', 'E', ' ', lbrace], t3)
            else none
          | [] => none
        else none
      else none
    | [] => none
  else none

/-- `\s+ → ' '` left-to-right, tracking whether the previous output char
absorbed a whitespace run (model of `re.sub(r'\s+', ' ', s)`). -/
def collapseAux : Bool → Str → Str
  | _, [] => []
  | prevSpace, c :: rest =>
    if isSpaceCh c then
      if prevSpace then collapseAux true rest
      else ' ' :: collapseAux true rest
    else c :: collapseAux false rest

/-- `re.sub(r'\s+', ' ', s)`. -/
def collapseWS (s : Str) : Str := collapseAux false s

/-- Step 1 of the repair function: newlines and carriage returns become spaces. -/
def replaceNL (s : Str) : Str :=
  (s.map (fun c => if c == '\n' then ' ' else c)).map (fun c => if c == '\r' then ' ' else c)

/-- Shallow embedding of `correct_sparql_syntax_advanced` (app.py, lines
274–329): the ordered heuristic repair pipeline applied to a raw model-produced
SPARQL candidate. -/
def correct_sparql_syntax_advanced (query : Str) : Str :=
  let q1 := replaceNL query
  let q2 := if containsSub q1 declTok then q1 else declLine ++ q1
  let q3 := applySub matchSelectGap q2
  let q4 := applySub matchWhereBrace q3
  let q5 := applySub matchGlue q4
  let q6 := pyStrip (collapseWS q5)
  let q7 := applySub matchDotBrace q6
  let q8 := if containsSub (toUpperL q7) whLit then q7 else applySub matchSelectWhere q7
  pyStrip (collapseWS q8)

/-!
## Data model of the `/assistant` endpoint

A `Row` models an rdflib `ResultRow`: an association list from variable name to
an optional RDF term.  A variable that appears in `row.labels` but is unbound
carries `none` (Python `None`); a bound term is modelled by its stringified
form (`str(term)`), which is the only view the endpoint ever takes of it.
-/

/-- A SPARQL result row: variable name ↦ optional stringified term. -/
abbrev Row := List (Str × Option Str)

/-- `rowVar row v`: `some val` iff `v` is among the row's labels, where `val`
is `none` for an unbound variable (Python `None`). -/
def rowVar (row : Row) (name : Str) : Option (Option Str) :=
  (row.find? (fun e => e.1 == name)).map (fun e => e.2)

/-- The test `v in row.labels and row[v] is not None and str(row[v]).strip() != ""`. -/
def row_has_point (row : Row) (name : Str) : Bool :=
  match rowVar row name with
  | some (some v) => !(pyStrip v).isEmpty
  | _ => false

/-- The value `str(row[v]).strip()` assigned when `row_has_point` holds. -/
def row_point_val (row : Row) (name : Str) : Str :=
  match rowVar row name with
  | some (some v) => pyStrip v
  | _ => []

/-- The variable name `p`. -/
def pVarLit : Str := "p".data

/-- The variable name `posizione`. -/
def posVarLit : Str := "posizione".data

/-- Shallow embedding of the location-point extraction loop (app.py, lines
449–457): scan rows in order; in each row test the `p` binding first, then the
`posizione` binding, and `break` on the first hit; `point` stays `""` when no
row hits. -/
def extract_point : List Row → Str
  | [] => []
  | row :: rest =>
    if row_has_point row pVarLit then row_point_val row pVarLit
    else if row_has_point row posVarLit then row_point_val row posVarLit
    else extract_point rest

/-- The three prompt-construction branches of STEP 3 (executed query with
rows, executed query without rows, no query), carrying exactly the
request-dependent data each branch interpolates into its prompt. -/
inductive PromptCase
  | withResults (generated_query : Str) (results : List Row)
  | noResults (generated_query : Str)
  | noQuery
deriving DecidableEq

/-- The inbound request model (`AssistantRequest` in app.py).  `max_tokens`
defaults to 512 and `temperature` to 0.5; floats are modelled as rationals
since the endpoint only passes them through. -/
structure AssistantRequest where
  message : Str
  max_tokens : Int
  temperature : Rat
deriving DecidableEq

/-- The JSON object returned by the endpoint. -/
structure AssistantResponse where
  query : Option Str
  response : Str
  point : Str
deriving DecidableEq

/-- Oracles for the external collaborators of one request.  Each `Except Unit`
value models "returned normally / raised".  `genSparql` is the content of the
first generation call; `genAnswer` receives the prompt branch and the
`max_tokens` and `temperature` arguments the endpoint passes; `isValid` is the
rdflib `parseQuery` check; `runQuery` is the store; `detect` is the
language-identification call on a given text; `translate` receives the
composed translator model id and the text. -/
structure Env where
  genSparql : Except Unit Str
  isValid : Str → Bool
  runQuery : Str → Except Unit (List Row)
  genAnswer : PromptCase → Int → Rat → Except Unit Str
  detect : Str → Except Unit Str
  translate : Str → Str → Except Unit Str

/-- Replace the two store-related oracles, leaving everything else unchanged. -/
def withStoreOracles (env : Env) (f : Str → Bool) (g : Str → Except Unit (List Row)) : Env :=
  ⟨env.genSparql, f, g, env.genAnswer, env.detect, env.translate⟩

/-- The sentinel marker. -/
def noSparqlLit : Str := "NO_SPARQL".data

/-- default fallback language for the question (`"en"`). -/
def enLit : Str := "en".data

/-- default fallback language for the answer (`"it"`). -/
def itLit : Str := "it".data

/-- `TRANSLATOR_MODEL_PREFIX` from app.py. -/
def translatorModelStem : Str := "Helsinki-NLP/opus-mt".data

/-- Shallow embedding of `classify_and_translate` (app.py, lines 195–251):
detect the language of question and answer (with asymmetric fallbacks `en` /
`it` on detection failure), return the answer unchanged when they coincide,
otherwise call the per-pair translator and fall back to the untranslated
answer when translation raises.  The function is total: no exception of a
collaborator escapes it. -/
def classify_and_translate (env : Env) (question_text model_answer_text : Str) : Str :=
  let question_lang := match env.detect question_text with
    | .ok l => l
    | .error _ => enLit
  let answer_lang := match env.detect model_answer_text with
    | .ok l => l
    | .error _ => itLit
  if question_lang == answer_lang then model_answer_text
  else
    let translator_model := translatorModelStem ++ '-' :: answer_lang ++ '-' :: question_lang
    match env.translate translator_model model_answer_text with
    | .ok t => t
    | .error _ => model_answer_text

/-- STEP 1 of the endpoint (app.py, lines 391–421): obtain the candidate from
the generation service (a raised exception is replaced by the sentinel), test
the sentinel prefix on the upper-cased stripped candidate, otherwise repair
and gate on syntactic validity.  Returns the `generated_query` value. -/
def gen_query_phase (env : Env) : Option Str :=
  let possible_query := match env.genSparql with
    | .ok content => pyStrip content
    | .error _ => noSparqlLit
  if litStarts noSparqlLit (toUpperL possible_query) then none
  else
    let advanced_corrected := correct_sparql_syntax_advanced possible_query
    if env.isValid advanced_corrected then some advanced_corrected else none

/-- STEP 2 of the endpoint (app.py, lines 426–436): execute the query when one
exists; a store exception yields zero rows. -/
def run_query_phase (env : Env) : Option Str → List Row
  | some q =>
    match env.runQuery q with
    | .ok rs => rs
    | .error _ => []
  | none => []

/-- The three-way branch of STEP 3 (app.py, lines 441–482). -/
def prompt_case (gq : Option Str) (results : List Row) : PromptCase :=
  match gq with
  | some q => if results.isEmpty then PromptCase.noResults q else PromptCase.withResults q results
  | none => PromptCase.noQuery

/-- The `point` value as the endpoint computes it: the extraction loop runs
only in the query-with-results branch; otherwise `point` keeps its initial
value `""`. -/
def point_of_case : PromptCase → Str
  | PromptCase.withResults _ rs => extract_point rs
  | _ => []

/-- The `max_tokens` argument of the second (answer) generation call
(app.py, line 491): the literal 512, not the request field. -/
def final_call_max_tokens : Int := 512

/-- The `temperature` argument of the second (answer) generation call
(app.py, line 492): the literal 0.5 = 1/2 (written in reduced form so that the
kernel can evaluate comparisons), not the request field. -/
def final_call_temperature : Rat := ⟨1, 2, by norm_num, by norm_num⟩

deriving instance DecidableEq for Except

/-- The two-character sequence `\"` removed first from the final answer. -/
def escQuoteLit : Str := [backslashChar, quoteChar]

/-- The one-character sequence `"` removed second from the final answer. -/
def quoteLit : Str := [quoteChar]

/-- Shallow embedding of `assistant_endpoint` (app.py, lines 349–513).  The
answer-generation call is the single terminal failure point: its exception is
surfaced as `Except.error`.  On success the response carries the generated
query (or `none`), the translated and quote-stripped final answer, and the
extracted point. -/
def assistant_endpoint (env : Env) (req : AssistantRequest) : Except Unit AssistantResponse :=
  let generated_query := gen_query_phase env
  let results := run_query_phase env generated_query
  let pcase := prompt_case generated_query results
  let point := point_of_case pcase
  match env.genAnswer pcase final_call_max_tokens final_call_temperature with
  | .error _ => .error ()
  | .ok content =>
    let final_answer := pyStrip content
    let final_ans := classify_and_translate env req.message final_answer
    let final_ans2 := pyReplace quoteLit [] (pyReplace escQuoteLit [] final_ans)
    .ok ⟨generated_query, final_ans2, point⟩

/-!
## The `/query_stanze` endpoint (entry construction)

Only the per-row entry construction (app.py, lines 579–597) is embedded: the
room grouping that follows does not touch `nome`/`punto`.  `pyStr` mirrors
Python's `str` applied to a term-or-`None`.
-/

/-- The variable name `opera`. -/
def operaLit : Str := "opera".data

/-- `str` applied to an optional term: `None` prints as `"None"`. -/
def pyStr : Option Str → Str
  | some v => v
  | none => "None".data

/-- Python `s.split(c)`. -/
def splitOnC (c : Char) : Str → List Str
  | [] => [[]]
  | d :: rest =>
    let r := splitOnC c rest
    if d == c then [] :: r
    else
      match r with
      | h :: t => (d :: h) :: t
      | [] => [[d]]

/-- The per-row entry of `/query_stanze`: `nome` is
`opera_uri.split("#")[-1].strip()` when `"#" in opera_uri`, else the whole
identifier; `punto` is `str(row["p"])` when bound, else `""`.  The result is
`none` when the row lacks one of the two labels (in the source a missing label
raises a `KeyError` swallowed by the surrounding handler). -/
def stanze_entry_of_row (row : Row) : Option (Str × Str) :=
  match rowVar row operaLit, rowVar row pVarLit with
  | some operaVal, some pVal =>
    let opera_uri := pyStr operaVal
    let opera_local :=
      if opera_uri.contains hashChar then pyStrip ((splitOnC hashChar opera_uri).getLastD [])
      else opera_uri
    let punto := match pVal with
      | some v => v
      | none => []
    some (opera_local, punto)
  | _, _ => none

/-!
## Specification-side definitions

These follow the wording of the specification (not the source) and are used to
compare the embedded code against the spec for the refinement claims.
-/

/-- Value of a non-empty binding of `name` in `row`, following the spec's
"row exposing a non-empty variable": present, bound, and non-blank after
stripping. -/
def nonEmptyBinding (row : Row) (name : Str) : Option Str :=
  match rowVar row name with
  | some (some v) => if (pyStrip v).isEmpty then none else some (pyStrip v)
  | _ => none

/-- Spec-side per-row two-tier rule: the `p` binding first, else `posizione`. -/
def row_point_spec (row : Row) : Option Str :=
  match nonEmptyBinding row pVarLit with
  | some v => some v
  | none => nonEmptyBinding row posVarLit

/-- Spec-side single-pass scan: the first row yielding a point (under the
per-row two-tier rule) wins; `""` when no row yields one. -/
def extract_point_single_pass (rows : List Row) : Str :=
  (rows.findSome? row_point_spec).getD []

/-- The extraction rule exactly as claim C1 states it: the first non-empty
`p` binding anywhere in the result set wins, and only if no row at all yields
a non-empty `p` binding does the first non-empty `posizione` binding win. -/
def extract_point_two_pass (rows : List Row) : Str :=
  match rows.findSome? (fun row => nonEmptyBinding row pVarLit) with
  | some v => v
  | none =>
    match rows.findSome? (fun row => nonEmptyBinding row posVarLit) with
    | some v => v
    | none => []

/-- Fragment of `s` after the last occurrence of `c` (the whole of `s` when
`c` does not occur): the spec's "local name" reading. -/
def afterLastC (c : Char) (s : Str) : Str :=
  (s.reverse.takeWhile (fun d => d != c)).reverse

/-- Spec-side local name with the stripping the source performs. -/
def local_name_spec (uri : Str) : Str :=
  if uri.contains hashChar then pyStrip (afterLastC hashChar uri) else uri

/-- The local name exactly as claim C10 states it (no stripping). -/
def local_name_claim (uri : Str) : Str :=
  if uri.contains hashChar then afterLastC hashChar uri else uri

/-!
## Generic lemmas about the substitution driver
-/

theorem subRun_fuel_irrel (m : Str → Option (Str × Str)) (hm : Progress m) :
    ∀ f₁ f₂ s, s.length ≤ f₁ → s.length ≤ f₂ → subRun m f₁ s = subRun m f₂ s := by
  intro f₁
  induction f₁ with
  | zero =>
    intro f₂ s hs₁ _
    have : s = [] := List.length_eq_zero.mp (Nat.le_zero.mp hs₁)
    subst this
    cases f₂ <;> rfl
  | succ n ih =>
    intro f₂ s hs₁ hs₂
    cases s with
    | nil => cases f₂ <;> rfl
    | cons c rest =>
      cases f₂ with
      | zero => exact absurd hs₂ (by simp)
      | succ k =>
        show subRun m (n + 1) (c :: rest) = subRun m (k + 1) (c :: rest)
        unfold subRun
        cases hmt : m (c :: rest) with
        | none =>
          simp only []
          have h1 : rest.length ≤ n := by simp only [List.length_cons] at hs₁; omega
          have h2 : rest.length ≤ k := by simp only [List.length_cons] at hs₂; omega
          rw [ih k rest h1 h2]
        | some pr =>
          obtain ⟨out, rem⟩ := pr
          simp only []
          have hlt := hm _ _ _ hmt
          have h1 : rem.length ≤ n := by
            have := Nat.lt_of_lt_of_le hlt hs₁
            omega
          have h2 : rem.length ≤ k := by
            have := Nat.lt_of_lt_of_le hlt hs₂
            omega
          rw [ih k rem h1 h2]

/-- No match of `m` can start inside `a`, whatever follows it. -/
def SafeAppend (m : Str → Option (Str × Str)) (a : Str) : Prop :=
  ∀ t, t ∈ a.tails → t ≠ [] → ∀ b, m (t ++ b) = none

theorem subRun_append (m : Str → Option (Str × Str)) :
    ∀ (a b : Str), SafeAppend m a → ∀ f, a.length + b.length ≤ f →
      subRun m f (a ++ b) = a ++ subRun m (f - a.length) b := by
  intro a
  induction a with
  | nil => intro b _ f _; simp
  | cons c a' ih =>
    intro b hsafe f hf
    cases f with
    | zero => exact absurd hf (by simp)
    | succ f' =>
      have hmt : m ((c :: a') ++ b) = none := by
        refine hsafe (c :: a') ?_ (by simp) b
        rw [List.tails_cons]
        exact List.mem_cons_self _ _
      have hstep : subRun m (f' + 1) ((c :: a') ++ b) = c :: subRun m f' (a' ++ b) := by
        simp only [List.cons_append, subRun, List.append_eq]
        simp only [List.cons_append] at hmt
        rw [hmt]
      rw [hstep]
      have hsafe' : SafeAppend m a' := by
        intro t ht hne b'
        refine hsafe t ?_ hne b'
        rw [List.tails_cons]
        exact List.mem_cons_of_mem _ ht
      have hf' : a'.length + b.length ≤ f' := by
        simp only [List.length_cons] at hf
        omega
      rw [ih b hsafe' f' hf']
      simp only [List.cons_append, List.length_cons, Nat.succ_sub_succ]

theorem applySub_append (m : Str → Option (Str × Str)) (a b : Str)
    (hsafe : SafeAppend m a) : applySub m (a ++ b) = a ++ applySub m b := by
  unfold applySub
  rw [List.length_append, subRun_append m a b hsafe (a.length + b.length) (le_refl _)]
  congr 1
  congr 1
  omega

/-!
## Safety of the declaration region

For each matcher we give a decidable per-tail condition guaranteeing that no
match can start at that tail, however the string continues to the right; then
`safeAll` checks the condition on all tails of a concrete prefix region.
-/

theorem ciStops_extends (pat : Str) :
    ∀ t, ciStops pat t = true → ∀ b, ciStarts pat (t ++ b) = false := by
  induction pat with
  | nil => intro t h b; simp [ciStops] at h
  | cons p ps ih =>
    intro t h b
    cases t with
    | nil => simp [ciStops] at h
    | cons c cs =>
      simp only [ciStops, Bool.or_eq_true, Bool.not_eq_true'] at h
      simp only [List.cons_append, ciStarts, Bool.and_eq_false_iff]
      rcases h with h | h
      · exact Or.inl h
      · exact Or.inr (ih cs h b)

theorem litStops_extends (pat : Str) :
    ∀ t, litStops pat t = true → ∀ b, litStarts pat (t ++ b) = false := by
  induction pat with
  | nil => intro t h b; simp [litStops] at h
  | cons p ps ih =>
    intro t h b
    cases t with
    | nil => simp [litStops] at h
    | cons c cs =>
      simp only [litStops, Bool.or_eq_true, bne_iff_ne, ne_eq] at h
      simp only [List.cons_append, litStarts, Bool.and_eq_false_iff]
      rcases h with h | h
      · exact Or.inl (by simpa using h)
      · exact Or.inr (ih cs h b)

/-- Elements of `t ++ b` below `t.length` come from `t`. -/
theorem drop_append_getD (t b : Str) (n : Nat) (h : n < t.length) :
    (t ++ b).drop n = t.getD n ' ' :: (t.drop (n + 1) ++ b) := by
  rw [List.drop_append_of_le_length (Nat.le_of_lt h), List.drop_eq_getElem_cons h,
    List.getD_eq_getElem t ' ' h, List.cons_append]

/-- Per-tail safety for `matchSelectGap`. -/
def condSelectGap (t : Str) : Bool :=
  ciStops selLit t ||
    (decide (7 ≤ t.length) && !((t.getD 6 ' ') == qmark || (t.getD 6 ' ') == '*'))

theorem matchSelectGap_safe :
    ∀ t, t ≠ [] → condSelectGap t = true → ∀ b, matchSelectGap (t ++ b) = none := by
  intro t _ hc b
  unfold matchSelectGap
  simp only [condSelectGap, Bool.or_eq_true, Bool.and_eq_true, decide_eq_true_eq,
    Bool.not_eq_true'] at hc
  rcases hc with hstop | ⟨hlen, hsym⟩
  · rw [ciStops_extends selLit t hstop b]
    rfl
  · cases hs : ciStarts selLit (t ++ b) with
    | false => rfl
    | true =>
      rw [drop_append_getD t b 6 (by omega)]
      simp only [List.getD, List.get?_eq_getElem?, Bool.or_eq_false_iff,
        beq_eq_false_iff_ne, ne_eq] at hsym
      simp [hsym.1, hsym.2]
  

/-- Per-tail safety for `matchWhereBrace`. -/
def condWhereBrace (t : Str) : Bool :=
  ciStops whLit t || (decide (6 ≤ t.length) && !((t.getD 5 ' ') == lbrace))

theorem matchWhereBrace_safe :
    ∀ t, t ≠ [] → condWhereBrace t = true → ∀ b, matchWhereBrace (t ++ b) = none := by
  intro t _ hc b
  unfold matchWhereBrace
  simp only [condWhereBrace, Bool.or_eq_true, Bool.and_eq_true, decide_eq_true_eq,
    Bool.not_eq_true'] at hc
  rcases hc with hstop | ⟨hlen, hbr⟩
  · rw [ciStops_extends whLit t hstop b]
    rfl
  · cases hs : ciStarts whLit (t ++ b) with
    | false => rfl
    | true =>
      rw [drop_append_getD t b 5 (by omega)]
      simp only [List.getD, List.get?_eq_getElem?, beq_eq_false_iff_ne, ne_eq] at hbr
      simp [hbr]

/-- Per-tail safety for `matchGlue`. -/
def condGlue (t : Str) : Bool :=
  litStops pmLit t || (decide (15 ≤ t.length) && !isWordCh (t.getD 14 ' '))

theorem matchGlue_safe :
    ∀ t, t ≠ [] → condGlue t = true → ∀ b, matchGlue (t ++ b) = none := by
  intro t _ hc b
  unfold matchGlue
  simp only [condGlue, Bool.or_eq_true, Bool.and_eq_true, decide_eq_true_eq,
    Bool.not_eq_true'] at hc
  rcases hc with hstop | ⟨hlen, hw⟩
  · rw [litStops_extends pmLit t hstop b]
    rfl
  · cases hs : litStarts pmLit (t ++ b) with
    | false => rfl
    | true =>
      rw [drop_append_getD t b 14 (by omega)]
      simp only [List.getD, List.get?_eq_getElem?] at hw
      simp [List.takeWhile_cons, hw]

/-- Per-tail safety for `matchDotBrace`. -/
def condDotBrace (t : Str) : Bool :=
  !((t.headD ' ') == qmark)

theorem matchDotBrace_safe :
    ∀ t, t ≠ [] → condDotBrace t = true → ∀ b, matchDotBrace (t ++ b) = none := by
  intro t hne hc b
  cases t with
  | nil => exact absurd rfl hne
  | cons c cs =>
    simp only [condDotBrace, List.headD_cons, Bool.not_eq_true'] at hc
    unfold matchDotBrace
    simp [hc]

/-- Per-tail safety for `matchSelectWhere`. -/
def condSelectWhere (t : Str) : Bool :=
  ciStops selLit t || (decide (7 ≤ t.length) && !isSpaceCh (t.getD 6 ' '))

theorem matchSelectWhere_safe :
    ∀ t, t ≠ [] → condSelectWhere t = true → ∀ b, matchSelectWhere (t ++ b) = none := by
  intro t _ hc b
  unfold matchSelectWhere
  simp only [condSelectWhere, Bool.or_eq_true, Bool.and_eq_true, decide_eq_true_eq,
    Bool.not_eq_true'] at hc
  rcases hc with hstop | ⟨hlen, hsp⟩
  · rw [ciStops_extends selLit t hstop b]
    rfl
  · cases hs : ciStarts selLit (t ++ b) with
    | false => rfl
    | true =>
      rw [drop_append_getD t b 6 (by omega)]
      simp only [List.getD, List.get?_eq_getElem?] at hsp
      simp [hsp]

/-- Decidable check that every nonempty tail of `a` satisfies `cond`. -/
def safeAll (cond : Str → Bool) (a : Str) : Bool :=
  a.tails.all (fun t => t.isEmpty || cond t)

theorem safeAppend_of_all (m : Str → Option (Str × Str)) (cond : Str → Bool)
    (hcond : ∀ t, t ≠ [] → cond t = true → ∀ b, m (t ++ b) = none)
    (a : Str) (ha : safeAll cond a = true) : SafeAppend m a := by
  intro t ht hne b
  have h := List.all_eq_true.mp ha t ht
  simp only [Bool.or_eq_true, List.isEmpty_iff] at h
  rcases h with h | h
  · exact absurd h hne
  · exact hcond t hne h b

theorem declLine_safe_selectGap : SafeAppend matchSelectGap declLine :=
  safeAppend_of_all _ condSelectGap matchSelectGap_safe _ (by decide)

theorem declLine_safe_whereBrace : SafeAppend matchWhereBrace declLine :=
  safeAppend_of_all _ condWhereBrace matchWhereBrace_safe _ (by decide)

theorem declLine_safe_glue : SafeAppend matchGlue declLine :=
  safeAppend_of_all _ condGlue matchGlue_safe _ (by decide)

theorem declFull_safe_dotBrace : SafeAppend matchDotBrace declFull :=
  safeAppend_of_all _ condDotBrace matchDotBrace_safe _ (by decide)

theorem declFull_safe_selectWhere : SafeAppend matchSelectWhere declFull :=
  safeAppend_of_all _ condSelectWhere matchSelectWhere_safe _ (by decide)

/-!
## Whitespace collapse and strip over a clean prefix region
-/

/-- `a` is already in collapsed form: every whitespace character is a plain
space and no two adjacent characters are both whitespace. -/
def collapsedOK : Str → Bool
  | [] => true
  | [c] => !isSpaceCh c || c == ' '
  | c :: d :: rest => ((!isSpaceCh c) || (c == ' ' && !isSpaceCh d)) && collapsedOK (d :: rest)

/-- Whether `a` ends in a whitespace character. -/
def endsSpace : Str → Bool
  | [] => false
  | [c] => isSpaceCh c
  | _ :: c :: rest => endsSpace (c :: rest)

theorem collapseAux_true_of_head (s : Str)
    (h : ∀ c cs, s = c :: cs → isSpaceCh c = false) :
    collapseAux true s = collapseAux false s := by
  cases s with
  | nil => rfl
  | cons c cs =>
    have := h c cs rfl
    simp [collapseAux, this]

theorem collapseAux_space_cons (rest : Str) :
    collapseAux false (' ' :: rest) = ' ' :: collapseAux true rest := rfl

theorem collapseAux_nonspace_cons (p : Bool) (c : Char) (rest : Str)
    (h : isSpaceCh c = false) :
    collapseAux p (c :: rest) = c :: collapseAux false rest := by
  simp [collapseAux, h]

theorem collapseAux_append (a : Str) :
    ∀ b, collapsedOK a = true →
      collapseAux false (a ++ b) = a ++ collapseAux (endsSpace a) b := by
  induction a with
  | nil => intro b _; rfl
  | cons c a' ih =>
    intro b hok
    cases a' with
    | nil =>
      by_cases hc : isSpaceCh c = true
      · have hc' : c = ' ' := by
          simp only [collapsedOK, Bool.or_eq_true, Bool.not_eq_true'] at hok
          rcases hok with h | h
          · rw [hc] at h; cases h
          · exact eq_of_beq h
        subst hc'
        show collapseAux false (' ' :: b) = ' ' :: collapseAux (endsSpace [' ']) b
        rw [collapseAux_space_cons]
        rfl
      · have hc' : isSpaceCh c = false := by simpa using hc
        show collapseAux false (c :: b) = c :: collapseAux (endsSpace [c]) b
        rw [collapseAux_nonspace_cons false c b hc']
        have hes : endsSpace [c] = isSpaceCh c := rfl
        rw [hes, hc']
    | cons d a'' =>
      have hok' : collapsedOK (d :: a'') = true := by
        simp only [collapsedOK, Bool.and_eq_true] at hok
        exact hok.2
      have hhead : ((!isSpaceCh c) || (c == ' ' && !isSpaceCh d)) = true := by
        simp only [collapsedOK, Bool.and_eq_true] at hok
        exact hok.1
      have hes : endsSpace (c :: d :: a'') = endsSpace (d :: a'') := rfl
      rw [hes]
      rcases (Bool.or_eq_true _ _).mp hhead with h | h
      · have hc' : isSpaceCh c = false := by simpa using h
        show collapseAux false (c :: ((d :: a'') ++ b)) =
          c :: ((d :: a'') ++ collapseAux (endsSpace (d :: a'')) b)
        rw [collapseAux_nonspace_cons false c _ hc']
        rw [ih b hok']
      · have hc' : c = ' ' := eq_of_beq ((Bool.and_eq_true _ _).mp h).1
        have hd' : isSpaceCh d = false := by
          have h2 := ((Bool.and_eq_true _ _).mp h).2
          simpa using h2
        subst hc'
        show collapseAux false (' ' :: ((d :: a'') ++ b)) =
          ' ' :: ((d :: a'') ++ collapseAux (endsSpace (d :: a'')) b)
        rw [collapseAux_space_cons]
        have hstep : collapseAux true ((d :: a'') ++ b) = collapseAux false ((d :: a'') ++ b) := by
          apply collapseAux_true_of_head
          intro e es he
          simp only [List.cons_append] at he
          injection he with h1 _
          rw [← h1]
          exact hd'
        rw [hstep, ih b hok']

theorem endsSpace_false_reverse (a : Str) :
    a ≠ [] → endsSpace a = false → ∃ c cs, a.reverse = c :: cs ∧ isSpaceCh c = false := by
  induction a with
  | nil => intro h _; exact absurd rfl h
  | cons c a' ih =>
    intro _ hes
    cases a' with
    | nil =>
      refine ⟨c, [], by simp, ?_⟩
      simpa [endsSpace] using hes
    | cons d a'' =>
      have hes' : endsSpace (d :: a'') = false := hes
      obtain ⟨e, es, h1, h2⟩ := ih (by simp) hes'
      exact ⟨e, es ++ [c], by simp [h1], h2⟩

theorem lstripL_cons_of_nonspace (c : Char) (s : Str) (h : isSpaceCh c = false) :
    lstripL (c :: s) = c :: s := by
  unfold lstripL
  simp [List.dropWhile_cons, h]

theorem lstripL_append_head (a z : Str) (hne : a ≠ []) (h : isSpaceCh (a.headD ' ') = false) :
    lstripL (a ++ z) = a ++ z := by
  cases a with
  | nil => exact absurd rfl hne
  | cons c cs =>
    simp only [List.headD_cons] at h
    show lstripL (c :: (cs ++ z)) = c :: (cs ++ z)
    exact lstripL_cons_of_nonspace c _ h

theorem rstripL_append (a b : Str) (hne : a ≠ []) (hes : endsSpace a = false) :
    rstripL (a ++ b) = a ++ rstripL b := by
  obtain ⟨c, cs, hrev, hc⟩ := endsSpace_false_reverse a hne hes
  have hstop : a.reverse.dropWhile isSpaceCh = a.reverse := by
    rw [hrev]
    simp [List.dropWhile_cons, hc]
  unfold rstripL
  rw [List.reverse_append, List.dropWhile_append]
  by_cases hb : (b.reverse.dropWhile isSpaceCh).isEmpty = true
  · rw [if_pos hb, hstop, List.reverse_reverse]
    have hbe : b.reverse.dropWhile isSpaceCh = [] := List.isEmpty_iff.mp hb
    rw [hbe]
    simp
  · rw [if_neg hb, List.reverse_append, List.reverse_reverse]

/-- Any whitespace collapse followed by stripping keeps an intact clean prefix
region in place. -/
theorem declFull_prefix_finish (w : Str) :
    declFull <+: pyStrip (collapseWS (declFull ++ w)) := by
  unfold collapseWS
  rw [collapseAux_append declFull w (by decide)]
  rw [show endsSpace declFull = false by decide]
  unfold pyStrip
  rw [lstripL_append_head declFull _ (by decide) (by decide)]
  rw [rstripL_append declFull _ (by decide) (by decide)]
  exact ⟨_, rfl⟩

/-- C7 (amended): for every candidate whose newline-normalized form does not
contain the reserved declaration token `PREFIX progettoMuseo:`, the repair
output begins with the prepended reserved namespace prefix declaration.  (The
original claim's "exactly once" does not hold in general, see the
counterexample theorem: whitespace normalization of the candidate can surface
a second copy of the token.) -/
theorem c7_repair_prepends_declaration (x : Str)
    (hx : containsSub (replaceNL x) declTok = false) :
    declFull <+: correct_sparql_syntax_advanced x := by
  unfold correct_sparql_syntax_advanced
  simp only []
  have hq2 : (if containsSub (replaceNL x) declTok = true then replaceNL x
      else declLine ++ replaceNL x) = declLine ++ replaceNL x := by
    rw [hx]
    simp
  rw [hq2]
  rw [applySub_append matchSelectGap declLine _ declLine_safe_selectGap]
  rw [applySub_append matchWhereBrace declLine _ declLine_safe_whereBrace]
  rw [applySub_append matchGlue declLine _ declLine_safe_glue]
  have h6 : collapseWS (declLine ++ applySub matchGlue (applySub matchWhereBrace (applySub matchSelectGap (replaceNL x)))) =
      declFull ++ (' ' :: collapseAux true (applySub matchGlue (applySub matchWhereBrace (applySub matchSelectGap (replaceNL x))))) := by
    unfold collapseWS
    rw [collapseAux_append declLine _ (by decide)]
    rw [show endsSpace declLine = true by decide]
    show (declFull ++ [' ']) ++ _ = _
    rw [List.append_assoc]
    rfl
  rw [h6]
  have h6b : pyStrip (declFull ++ (' ' :: collapseAux true (applySub matchGlue (applySub matchWhereBrace (applySub matchSelectGap (replaceNL x)))))) =
      declFull ++ rstripL (' ' :: collapseAux true (applySub matchGlue (applySub matchWhereBrace (applySub matchSelectGap (replaceNL x))))) := by
    unfold pyStrip
    rw [lstripL_append_head declFull _ (by decide) (by decide)]
    exact rstripL_append declFull _ (by decide) (by decide)
  rw [h6b]
  rw [applySub_append matchDotBrace declFull _ declFull_safe_dotBrace]
  by_cases h8 : containsSub (toUpperL (declFull ++ applySub matchDotBrace (rstripL (' ' :: collapseAux true (applySub matchGlue (applySub matchWhereBrace (applySub matchSelectGap (replaceNL x)))))))) whLit = true
  · rw [if_pos h8]
    exact declFull_prefix_finish _
  · rw [if_neg h8]
    rw [applySub_append matchSelectWhere declFull _ declFull_safe_selectWhere]
    exact declFull_prefix_finish _

/-!
## Location-point extraction: single-pass characterisation
-/

theorem nonEmptyBinding_eq_ite (row : Row) (name : Str) :
    nonEmptyBinding row name =
      if row_has_point row name then some (row_point_val row name) else none := by
  unfold nonEmptyBinding row_has_point row_point_val
  cases hv : rowVar row name with
  | none => rfl
  | some ov =>
    cases ov with
    | none => rfl
    | some v =>
      by_cases he : (pyStrip v).isEmpty = true
      · simp [he]
      · simp [he, Bool.not_eq_true] at *

theorem extract_point_eq_findSome (rows : List Row) :
    extract_point rows = (rows.findSome? row_point_spec).getD [] := by
  induction rows with
  | nil => rfl
  | cons row rest ih =>
    unfold extract_point
    rw [List.findSome?_cons]
    have hspec : row_point_spec row =
        if row_has_point row pVarLit then some (row_point_val row pVarLit)
        else if row_has_point row posVarLit then some (row_point_val row posVarLit)
        else none := by
      unfold row_point_spec
      rw [nonEmptyBinding_eq_ite row pVarLit, nonEmptyBinding_eq_ite row posVarLit]
      by_cases h1 : row_has_point row pVarLit <;> by_cases h2 : row_has_point row posVarLit <;>
        simp [h1, h2]
    rw [hspec]
    by_cases h1 : row_has_point row pVarLit
    · simp [h1]
    · by_cases h2 : row_has_point row posVarLit
      · simp [h1, h2]
      · simp [h1, h2, ih]

/-!
## Quote removal leaves no double quote
-/

theorem subRun_removes_quote :
    ∀ f s, s.length ≤ f → quoteChar ∉ subRun (litMatcher quoteLit []) f s := by
  intro f
  induction f with
  | zero =>
    intro s hs
    have : s = [] := List.length_eq_zero.mp (Nat.le_zero.mp hs)
    subst this
    simp [subRun]
  | succ n ih =>
    intro s hs
    cases s with
    | nil => simp [subRun]
    | cons c rest =>
      have hrest : rest.length ≤ n := by
        simp only [List.length_cons] at hs
        omega
      by_cases hc : c = quoteChar
      · subst hc
        have hm : litMatcher quoteLit [] (quoteChar :: rest) = some ([], rest) := by
          unfold litMatcher
          simp [quoteLit, litStarts]
        show quoteChar ∉ subRun (litMatcher quoteLit []) (n + 1) (quoteChar :: rest)
        unfold subRun
        rw [hm]
        simpa using ih rest hrest
      · have hm : litMatcher quoteLit [] (c :: rest) = none := by
          unfold litMatcher
          simp [quoteLit, litStarts]
          intro h
          exact absurd h.symm hc
        show quoteChar ∉ subRun (litMatcher quoteLit []) (n + 1) (c :: rest)
        unfold subRun
        rw [hm]
        simp only [List.mem_cons, not_or]
        exact ⟨fun h => hc h.symm, ih rest hrest⟩

theorem pyReplace_removes_quote (s : Str) : quoteChar ∉ pyReplace quoteLit [] s :=
  subRun_removes_quote s.length s (le_refl _)

/-!
## `split("#")[-1]` equals the fragment after the last separator
-/

theorem splitOnC_cons (c d : Char) (rest : Str) :
    splitOnC c (d :: rest) =
      if d == c then [] :: splitOnC c rest
      else
        match splitOnC c rest with
        | h :: t => (d :: h) :: t
        | [] => [[d]] := rfl

theorem splitOnC_ne_nil (c : Char) : ∀ s : Str, splitOnC c s ≠ [] := by
  intro s
  cases s with
  | nil => simp [splitOnC]
  | cons d rest =>
    rw [splitOnC_cons]
    by_cases h : (d == c) = true
    · simp [h]
    · rw [if_neg (by simpa using h)]
      cases hr : splitOnC c rest <;> simp

theorem splitOnC_of_not_contains (c : Char) :
    ∀ s : Str, s.contains c = false → splitOnC c s = [s] := by
  intro s
  induction s with
  | nil => intro _; rfl
  | cons d rest ih =>
    intro h
    simp only [List.contains_cons, Bool.or_eq_false_iff] at h
    have hd : ¬ (d == c) = true := by
      rcases h with ⟨h1, _⟩
      simp only [beq_eq_false_iff_ne, ne_eq] at h1
      simp only [beq_iff_eq]
      exact fun he => h1 he.symm
    rw [splitOnC_cons, if_neg hd, ih h.2]

theorem splitOnC_two_of_contains (c : Char) :
    ∀ s : Str, s.contains c = true → ∃ a t, splitOnC c s = a :: t ∧ t ≠ [] := by
  intro s
  induction s with
  | nil => intro h; simp [List.contains] at h
  | cons d rest ih =>
    intro h
    by_cases hd : (d == c) = true
    · refine ⟨[], splitOnC c rest, ?_, splitOnC_ne_nil c rest⟩
      rw [splitOnC_cons, if_pos hd]
    · have hr : rest.contains c = true := by
        simp only [List.contains_cons, Bool.or_eq_true] at h
        rcases h with h | h
        · refine absurd ?_ hd
          simp only [beq_iff_eq] at h ⊢
          exact h.symm
        · exact h
      obtain ⟨a, t, h1, h2⟩ := ih hr
      refine ⟨d :: a, t, ?_, h2⟩
      rw [splitOnC_cons, if_neg hd, h1]

theorem getLastD_irrel (t : List Str) (h : t ≠ []) (d₁ d₂ : Str) :
    t.getLastD d₁ = t.getLastD d₂ := by
  cases t with
  | nil => exact absurd rfl h
  | cons x xs => rfl

theorem afterLastC_cons_self (c : Char) (rest : Str) :
    afterLastC c (c :: rest) = afterLastC c rest := by
  unfold afterLastC
  rw [List.reverse_cons, List.takeWhile_append]
  by_cases hall : (rest.reverse.takeWhile (fun e => e != c)).length = rest.reverse.length
  · rw [if_pos hall]
    have heq : rest.reverse.takeWhile (fun e => e != c) = rest.reverse :=
      (List.takeWhile_prefix _).eq_of_length hall
    have hone : List.takeWhile (fun e => e != c) [c] = [] := by simp
    rw [hone, List.append_nil, heq]
  · rw [if_neg hall]

theorem afterLastC_cons_of_not_contains (c d : Char) (rest : Str) (hd : (d == c) = false)
    (h : rest.contains c = false) : afterLastC c (d :: rest) = d :: rest := by
  unfold afterLastC
  rw [List.reverse_cons, List.takeWhile_append]
  have hall : rest.reverse.takeWhile (fun e => e != c) = rest.reverse := by
    rw [List.takeWhile_eq_self_iff]
    intro x hx
    rw [List.mem_reverse] at hx
    have hxc : ¬ x = c := by
      intro hxc
      rw [hxc] at hx
      have hel := List.elem_eq_true_of_mem hx
      rw [show rest.contains c = rest.elem c from rfl, hel] at h
      cases h
    simpa using hxc
  rw [if_pos (by rw [hall])]
  have hone : List.takeWhile (fun e => e != c) [d] = [d] := by
    have hne : d ≠ c := beq_eq_false_iff_ne.mp hd
    simp [hne]
  rw [hone, List.reverse_append, List.reverse_reverse]
  rfl

theorem afterLastC_cons_of_contains (c d : Char) (rest : Str) (h : rest.contains c = true) :
    afterLastC c (d :: rest) = afterLastC c rest := by
  unfold afterLastC
  rw [List.reverse_cons, List.takeWhile_append]
  have hlt : ¬ (rest.reverse.takeWhile (fun e => e != c)).length = rest.reverse.length := by
    intro heq
    have heq2 : rest.reverse.takeWhile (fun e => e != c) = rest.reverse :=
      (List.takeWhile_prefix _).eq_of_length heq
    rw [List.takeWhile_eq_self_iff] at heq2
    have hc : c ∈ rest.reverse := List.mem_reverse.mpr (List.mem_of_elem_eq_true h)
    have hcc := heq2 c hc
    simp at hcc
  rw [if_neg hlt]

theorem splitOnC_getLastD (c : Char) :
    ∀ s : Str, (splitOnC c s).getLastD [] = afterLastC c s := by
  intro s
  induction s with
  | nil => rfl
  | cons d rest ih =>
    by_cases hd : (d == c) = true
    · have hdc : d = c := eq_of_beq hd
      subst hdc
      rw [splitOnC_cons, if_pos hd, List.getLastD_cons, ih, afterLastC_cons_self]
    · have hd' : (d == c) = false := by simpa using hd
      by_cases hr : rest.contains c = true
      · obtain ⟨a, t, h1, h2⟩ := splitOnC_two_of_contains c rest hr
        rw [splitOnC_cons, if_neg hd, h1, List.getLastD_cons]
        rw [getLastD_irrel t h2 (d :: a) []]
        rw [afterLastC_cons_of_contains c d rest hr]
        rw [← ih, h1, List.getLastD_cons, getLastD_irrel t h2 a []]
      · have hr' : rest.contains c = false := by simpa using hr
        rw [splitOnC_cons, if_neg hd, splitOnC_of_not_contains c rest hr']
        rw [afterLastC_cons_of_not_contains c d rest hd' hr']
        rfl

/-!
## Claim theorems
-/

/-- C1 (amended): the location-point extraction is a single pass over the rows
with a per-row two-tier rule: the first row (in order) that yields a non-empty
`p` binding — or, failing `p` in that row, a non-empty `posizione` binding —
wins, and within a row `p` has priority over `posizione`.  An earlier row's
`posizione` hit therefore pre-empts a later row's `p` hit (contrary to the
claim's original two-pass reading, refuted by the counterexample). -/
theorem C1_point_extraction_single_pass (rows : List Row) :
    extract_point rows = (rows.findSome? row_point_spec).getD [] :=
  extract_point_eq_findSome rows

/-- The value bound by the first row's `posizione`. -/
def xPt : Str := "X".data

/-- The value bound by the second row's `p`. -/
def yPt : Str := "Y".data

/-- A result set whose first row binds only a non-empty `posizione` and whose
second row binds a non-empty `p`. -/
def rowsC1 : List Row := [[(posVarLit, some xPt)], [(pVarLit, some yPt)]]

set_option maxRecDepth 100000 in
/-- C1 counterexample: on `rowsC1` the code returns the first row's
`posizione` value `X`, while the claim as stated (the `p` scan exhausts the
whole result set before falling back) would return `Y`. -/
theorem C1_counterexample_posizione_preempts :
    extract_point rowsC1 = xPt ∧ extract_point_two_pass rowsC1 = yPt ∧
    extract_point rowsC1 ≠ extract_point_two_pass rowsC1 := by
  refine ⟨by decide, by decide, by decide⟩

/-- The answer text returned by the discriminating generation oracle of C2. -/
def ansC2 : Str := "Risposta".data

/-- The temperature 0.9 = 9/10 carried by the C2 request (reduced form). -/
def tempC2 : Rat := ⟨9, 10, by norm_num, by norm_num⟩

/-- The value 1/2 the C2 oracle insists on (reduced form). -/
def halfC2 : Rat := ⟨1, 2, by norm_num, by norm_num⟩

/-- A request overriding both sampling parameters. -/
def reqC2 : AssistantRequest := ⟨"domanda".data, 100, tempC2⟩

/-- An environment whose answer-generation oracle succeeds only when called
with exactly `max_tokens = 512` and `temperature = 1/2`, and fails on any
other argument pair — so a successful response certifies which arguments the
endpoint passed. -/
def envC2 : Env :=
  ⟨Except.error (), fun _ => true, fun _ => Except.ok [],
   fun _ mt t => if mt = 512 ∧ t = halfC2 then Except.ok ansC2 else Except.error (),
   fun _ => Except.error (), fun _ _ => Except.error ()⟩

set_option maxRecDepth 100000 in
/-- C2 (code bug): the endpoint's answer-generation call passes the literals
`512` and `0.5` (app.py lines 491–492) and ignores the request's `max_tokens`
and `temperature` fields: with a request carrying `max_tokens = 100` and
`temperature = 0.9`, the endpoint still succeeds against an oracle that only
accepts the argument pair `(512, 1/2)`. -/
theorem C2_answer_call_ignores_request_params :
    reqC2.max_tokens = 100 ∧ reqC2.temperature = tempC2 ∧
    ¬ reqC2.max_tokens = final_call_max_tokens ∧
    ¬ reqC2.temperature = final_call_temperature ∧
    assistant_endpoint envC2 reqC2 = Except.ok ⟨none, ansC2, []⟩ := by
  refine ⟨rfl, rfl, by decide, by decide, by decide⟩

/-- C3: whenever the endpoint returns a response whose `query` field is
absent, the response's `point` field is the empty string. -/
theorem C3_no_query_empty_point (env : Env) (req : AssistantRequest)
    (r : AssistantResponse) (hok : assistant_endpoint env req = Except.ok r)
    (hq : r.query = none) : r.point = [] := by
  unfold assistant_endpoint at hok
  simp only [] at hok
  split at hok
  · cases hok
  · simp only [Except.ok.injEq] at hok
    subst hok
    have hq' : gen_query_phase env = none := hq
    show point_of_case (prompt_case (gen_query_phase env)
      (run_query_phase env (gen_query_phase env))) = []
    rw [hq']
    rfl

/-- The final answer text of the C3 witness environment. -/
def ansC3 : Str := "Ciao".data

/-- Witness environment for C3: query generation raises, the answer call
succeeds. -/
def envC3 : Env :=
  ⟨Except.error (), fun _ => true, fun _ => Except.ok [],
   fun _ _ _ => Except.ok ansC3, fun _ => Except.error (), fun _ _ => Except.error ()⟩

/-- Witness request for C3. -/
def reqC3 : AssistantRequest := ⟨"ciao".data, 512, 1 / 2⟩

/-- The response the C3 witness environment produces. -/
def rspC3 : AssistantResponse := ⟨none, ansC3, []⟩

set_option maxRecDepth 100000 in
/-- C3 witness: a concrete run with an absent query has an empty point. -/
theorem C3_witness : rspC3.point = [] :=
  C3_no_query_empty_point envC3 reqC3 rspC3 (by decide) rfl

/-- C4: when the answer-generation call raises, the endpoint surfaces a
terminal service error and returns no response at all. -/
theorem C4_answer_failure_terminal (env : Env) (req : AssistantRequest)
    (hfail : ∀ pc, env.genAnswer pc final_call_max_tokens final_call_temperature =
      Except.error ()) :
    assistant_endpoint env req = Except.error () := by
  unfold assistant_endpoint
  simp only []
  rw [hfail]

/-- Witness environment for C4: the answer call always raises. -/
def envC4 : Env :=
  ⟨Except.error (), fun _ => true, fun _ => Except.ok [],
   fun _ _ _ => Except.error (), fun _ => Except.error (), fun _ _ => Except.error ()⟩

/-- Witness request for C4. -/
def reqC4 : AssistantRequest := ⟨"quadro".data, 512, 1 / 2⟩

/-- C4 witness: a concrete run whose answer call raises yields the error. -/
theorem C4_witness : assistant_endpoint envC4 reqC4 = Except.error () :=
  C4_answer_failure_terminal envC4 reqC4 (fun _ => rfl)

/-- C5: when the stripped query-phase output starts (case-insensitively) with
the sentinel `NO_SPARQL`, the response's query field is absent and its point
is empty, and the result does not depend on the validator or the store oracle
at all — no repair gating or store execution influences the outcome. -/
theorem C5_sentinel_no_query (env : Env) (req : AssistantRequest) (s : Str)
    (hgen : env.genSparql = Except.ok s)
    (hsent : litStarts noSparqlLit (toUpperL (pyStrip s)) = true) :
    (∀ f g, assistant_endpoint (withStoreOracles env f g) req = assistant_endpoint env req) ∧
    (∀ r, assistant_endpoint env req = Except.ok r → r.query = none ∧ r.point = []) := by
  have hgq : gen_query_phase env = none := by
    unfold gen_query_phase
    rw [hgen]
    simp [hsent]
  constructor
  · intro f g
    have hgq' : gen_query_phase (withStoreOracles env f g) = none := by
      unfold gen_query_phase withStoreOracles
      simp only []
      rw [hgen]
      simp [hsent]
    unfold assistant_endpoint
    simp only []
    rw [hgq, hgq']
    rfl
  · intro r hok
    unfold assistant_endpoint at hok
    simp only [] at hok
    rw [hgq] at hok
    split at hok
    · cases hok
    · simp only [Except.ok.injEq] at hok
      subst hok
      exact ⟨rfl, rfl⟩

/-- A query-phase output starting with the sentinel (lower case). -/
def sC5 : Str := "no_sparql per questa domanda".data

/-- The answer text of the C5 witness environment. -/
def ansC5 : Str := "Bene".data

/-- Witness environment for C5: the generation service returns the sentinel. -/
def envC5 : Env :=
  ⟨Except.ok sC5, fun _ => true, fun _ => Except.ok [],
   fun _ _ _ => Except.ok ansC5, fun _ => Except.error (), fun _ _ => Except.error ()⟩

/-- Witness request for C5. -/
def reqC5 : AssistantRequest := ⟨"che tempo fa".data, 512, 1 / 2⟩

/-- The response the C5 witness environment produces. -/
def rspC5 : AssistantResponse := ⟨none, ansC5, []⟩

set_option maxRecDepth 100000 in
/-- C5 witness: a concrete sentinel run, with the store oracles replaced by
failing ones, yields the same response with absent query and empty point. -/
theorem C5_witness :
    assistant_endpoint (withStoreOracles envC5 (fun _ => false)
      (fun _ => Except.error ())) reqC5 = assistant_endpoint envC5 reqC5 ∧
    rspC5.query = none ∧ rspC5.point = [] :=
  ⟨(C5_sentinel_no_query envC5 reqC5 sC5 rfl (by decide)).1 _ _,
   (C5_sentinel_no_query envC5 reqC5 sC5 rfl (by decide)).2 rspC5 (by decide)⟩

/-- The input on which a second repair pass still rewrites: the glue fix's
first left-to-right scan consumes the following `progettoMuseo` token as part
of its match, skipping the second gluing, which only the next pass repairs. -/
def c6Input : Str := "progettoMuseo:a?progettoMuseo:b?c".data

set_option maxRecDepth 100000 in
/-- C6 counterexample: the repair function is not idempotent; a second
application changes the output again on `c6Input`. -/
theorem C6_counterexample_not_idempotent :
    correct_sparql_syntax_advanced (correct_sparql_syntax_advanced c6Input) ≠
      correct_sparql_syntax_advanced c6Input := by decide

/-- Worked example 1 of the query-synthesis prompt (app.py, line 150). -/
def fixtureExample1 : Str :=
  "PREFIX progettoMuseo: <http://www.semanticweb.org/lucreziamosca/ontologies/progettoMuseo#> SELECT ?autore WHERE \x7b progettoMuseo:AfroditeDiMilo progettoMuseo:autoreOpera ?autore . \x7d LIMIT 10".data

/-- Worked example 11 of the query-synthesis prompt (app.py, line 176). -/
def fixtureExample11 : Str :=
  "PREFIX progettoMuseo: <http://www.semanticweb.org/lucreziamosca/ontologies/progettoMuseo#> SELECT ?opera ?posizione WHERE \x7b progettoMuseo:Discobolo progettoMuseo:posizioneOpera ?posizione . \x7d LIMIT 10".data

set_option maxRecDepth 100000 in
/-- C6 (amended): the repair function is not idempotent on all inputs — a
second pass can re-apply the token-glue heuristic to text skipped by the
first non-overlapping scan (see the counterexample).  Idempotence does hold on
the well-formed worked-example queries of the synthesis prompt, verified here
on examples 1 and 11. -/
theorem C6_repair_idempotent_on_fixtures :
    correct_sparql_syntax_advanced (correct_sparql_syntax_advanced fixtureExample1) =
      correct_sparql_syntax_advanced fixtureExample1 ∧
    correct_sparql_syntax_advanced (correct_sparql_syntax_advanced fixtureExample11) =
      correct_sparql_syntax_advanced fixtureExample11 := by
  exact ⟨by decide, by decide⟩

/-- A candidate containing the reserved token only in a whitespace variant
(two spaces), so the exact-substring test of step 2 misses it. -/
def c7Input : Str := "PREFIX  progettoMuseo:".data

set_option maxRecDepth 100000 in
/-- C7 counterexample: on `c7Input` the declaration is prepended and then
whitespace collapapse materializes a second copy, so the repair output contains
the reserved token twice, refuting "exactly once". -/
theorem C7_counterexample_two_copies :
    containsSub c7Input declTok = false ∧
    countSub (correct_sparql_syntax_advanced c7Input) declTok = 2 := by
  exact ⟨by decide, by decide⟩

/-- A candidate with no trace of the reserved declaration. -/
def c7WitnessInput : Str := "SELECT ?autore".data

set_option maxRecDepth 100000 in
/-- C7 witness: the amended theorem applied to a concrete prefix-free
candidate. -/
theorem C7_witness :
    containsSub (replaceNL c7WitnessInput) declTok = false ∧
    declFull <+: correct_sparql_syntax_advanced c7WitnessInput :=
  ⟨by decide, c7_repair_prepends_declaration c7WitnessInput (by decide)⟩

/-- C8: if every translation call raises, language normalization returns the
original untranslated answer; the function is total, so no exception ever
propagates to its caller. -/
theorem C8_translation_failure_fallback (env : Env) (question answer : Str)
    (hfail : ∀ mdl txt, env.translate mdl txt = Except.error ()) :
    classify_and_translate env question answer = answer := by
  unfold classify_and_translate
  simp only []
  split
  · rfl
  · rw [hfail]

/-- Witness environment for C8: detection succeeds with different labels, the
translation call raises. -/
def envC8 : Env :=
  ⟨Except.error (), fun _ => true, fun _ => Except.ok [],
   fun _ _ _ => Except.error (), fun _ => Except.error (), fun _ _ => Except.error ()⟩

/-- The question text of the C8 witness. -/
def qC8 : Str := "dove sono le sculture".data

/-- The answer text of the C8 witness. -/
def aC8 : Str := "alla sala greca".data

/-- C8 witness: a concrete run in which the translation call raises returns
the original answer. -/
theorem C8_witness : classify_and_translate envC8 qC8 aC8 = aC8 :=
  C8_translation_failure_fallback envC8 qC8 aC8 (fun _ _ => rfl)

/-- C9: every successfully returned response text contains no double-quote
character: the endpoint removes every escaped and plain double quote before
returning. -/
theorem C9_response_quote_free (env : Env) (req : AssistantRequest)
    (r : AssistantResponse) (hok : assistant_endpoint env req = Except.ok r) :
    quoteChar ∉ r.response := by
  unfold assistant_endpoint at hok
  simp only [] at hok
  split at hok
  · cases hok
  · simp only [Except.ok.injEq] at hok
    subst hok
    show quoteChar ∉ pyReplace quoteLit [] (pyReplace escQuoteLit [] _)
    exact pyReplace_removes_quote _

/-- An answer text containing escaped double quotes. -/
def ansC9 : Str := "Ecco \x22tutto\x22".data

/-- Witness environment for C9: the answer call returns text with quotes. -/
def envC9 : Env :=
  ⟨Except.error (), fun _ => true, fun _ => Except.ok [],
   fun _ _ _ => Except.ok ansC9, fun _ => Except.error (), fun _ _ => Except.error ()⟩

/-- Witness request for C9. -/
def reqC9 : AssistantRequest := ⟨"saluta".data, 512, final_call_temperature⟩

/-- The response the C9 witness environment produces: quotes removed. -/
def rspC9 : AssistantResponse := ⟨none, "Ecco tutto".data, []⟩

set_option maxRecDepth 100000 in
/-- C9 witness: a concrete successful run's response contains no quote. -/
theorem C9_witness : quoteChar ∉ rspC9.response :=
  C9_response_quote_free envC9 reqC9 rspC9 (by decide)

/-- C10 (amended): for every row of the rooms/exhibits query exposing the
`opera` and `p` labels, the produced entry's `nome` is the fragment of the
stringified work identifier after the last `#`, with surrounding whitespace
stripped (or the whole identifier, unstripped, when no `#` occurs), and its
`punto` is the stringified position value, or the empty string when the
position variable is unbound.  (The original claim omits the stripping, see
the counterexample.) -/
theorem C10_stanze_entry_fields (row : Row) (operaVal pVal : Option Str)
    (h1 : rowVar row operaLit = some operaVal)
    (h2 : rowVar row pVarLit = some pVal) :
    stanze_entry_of_row row = some (local_name_spec (pyStr operaVal), pVal.getD []) := by
  unfold stanze_entry_of_row
  rw [h1, h2]
  simp only []
  unfold local_name_spec
  rw [splitOnC_getLastD hashChar (pyStr operaVal)]
  cases pVal <;> rfl

/-- A work identifier with trailing whitespace after the separator. -/
def uriC10 : Str := "http://x#A ".data

/-- The stripped local name the code produces for `uriC10`. -/
def nomeC10 : Str := "A".data

/-- The unstripped fragment the claim, as stated, would produce. -/
def fragC10 : Str := "A ".data

/-- A row of the rooms query carrying `uriC10` and an unbound position. -/
def rowC10 : Row := [(operaLit, some uriC10), (pVarLit, none)]

set_option maxRecDepth 100000 in
/-- C10 counterexample: the code strips the fragment (`"A"`), while the claim
as stated makes `nome` the raw fragment after the last `#` (`"A "`). -/
theorem C10_counterexample_stripping :
    stanze_entry_of_row rowC10 = some (nomeC10, []) ∧
    local_name_claim uriC10 = fragC10 ∧
    ¬ nomeC10 = fragC10 := by
  exact ⟨by decide, by decide, by decide⟩

/-- A well-formed work identifier for the C10 witness. -/
def uriC10w : Str := "http://museo#Discobolo".data

/-- The bound position value for the C10 witness. -/
def puntoC10w : Str := "(0, 0, 0.77)".data

/-- A row of the rooms query binding both labels. -/
def rowC10w : Row := [(operaLit, some uriC10w), (pVarLit, some puntoC10w)]

set_option maxRecDepth 100000 in
/-- C10 witness: the amended theorem applied to a concrete bound row. -/
theorem C10_witness :
    rowVar rowC10w operaLit = some (some uriC10w) ∧
    stanze_entry_of_row rowC10w =
      some (local_name_spec (pyStr (some uriC10w)), (some puntoC10w).getD []) :=
  ⟨by decide, C10_stanze_entry_fields rowC10w (some uriC10w) (some puntoC10w) (by decide) (by decide)⟩
